import Mathlib

/-!
Shallow embedding of the booklite RAG tools (`src/tools/rag`): the
token-window chunker of `index_specs.py`, the paragraph-packing chunker of
`index_specs_lite.py`, and the indexing, search and context-formatting
routines of all four modules.  Python strings are modelled as `List Char`,
token sequences as `List Nat`, floating-point similarity scores as `ℚ`.
External collaborators (tiktoken, sentence-transformers, chromadb, sklearn,
markdown/BeautifulSoup) are abstracted as function parameters, exactly as the
spec treats them (pluggable Embedder / VectorIndex capabilities).
-/

namespace Booklite

/-- Number of iterations of Python `range(0, n, step)`: `⌈n / step⌉` when
`step > 0` (Python raises `ValueError` on `step = 0`; the embedding returns
`0` there, and every theorem that touches this case carries a positivity
hypothesis). -/
def numIters (n step : Nat) : Nat := (n + step - 1) / step

/-- The slicing loop `for i in range(0, len(xs), step): out.append(xs[i:i+size])`
shared by `SpecsIndexer.chunk_content` (index_specs.py lines 106-109) and the
oversized-paragraph word fallback of `LiteSpecsIndexer.chunk_content`
(index_specs_lite.py lines 124-126).  `xs[i:i+size]` is `(xs.drop i).take size`. -/
def windows {α : Type} (size step : Nat) (xs : List α) : List (List α) :=
  (List.range' 0 (numIters xs.length step) step).map (fun i => (xs.drop i).take size)

theorem numIters_zero (step : Nat) : numIters 0 step = 0 := by
  unfold numIters
  rcases Nat.eq_zero_or_pos step with h | h
  · simp [h]
  · exact Nat.div_eq_of_lt (by omega)

theorem numIters_pos_unfold {n step : Nat} (hstep : 0 < step) (hn : 0 < n) :
    numIters n step = numIters (n - step) step + 1 := by
  unfold numIters
  rcases le_or_lt n step with h | h
  · have h1 : n - step = 0 := by omega
    rw [h1, Nat.zero_add]
    have h2 : (step - 1) / step = 0 := Nat.div_eq_of_lt (by omega)
    rw [h2]
    exact Nat.div_eq_of_lt_le (by omega) (by omega)
  · have h1 : n + step - 1 = (n - step + step - 1) + step := by omega
    rw [h1, Nat.add_div_right _ hstep]

theorem windows_nil {α : Type} (size step : Nat) : windows size step ([] : List α) = [] := by
  simp [windows, numIters_zero]

/-- One unfolding of the slicing loop: the first window is `xs.take size` and
the remaining windows are the windows of `xs.drop step`. -/
theorem windows_cons {α : Type} (size step : Nat) (hstep : 0 < step)
    (xs : List α) (hxs : xs ≠ []) :
    windows size step xs = xs.take size :: windows size step (xs.drop step) := by
  unfold windows
  have hlen : 0 < xs.length := List.length_pos.mpr hxs
  rw [numIters_pos_unfold hstep hlen, List.range'_succ, List.map_cons, List.drop_zero,
    List.length_drop]
  congr 1
  have hshift := List.map_add_range' step 0 (numIters (xs.length - step) step) step
  rw [Nat.add_zero] at hshift
  rw [Nat.zero_add, ← hshift, List.map_map]
  apply List.map_congr_left
  intro i _
  simp only [Function.comp]
  rw [List.drop_drop]

/-- Embeds `SpecsIndexer.chunk_content` (index_specs.py lines 101-111): tokenize, then
emit windows `tokens[i:i+chunk_size]` for `i in range(0, len(tokens),
chunk_size - overlap)`.  Tokenization (`tiktoken`) is external, so the
embedding operates on the token sequence directly. -/
def SpecsIndexer.chunk_content (tokens : List Nat) (chunk_size overlap : Nat) :
    List (List Nat) :=
  windows chunk_size (chunk_size - overlap) tokens

/-- Modelled from the spec: "chunks whose concatenation (accounting for the
declared overlap) reconstructs the original token sequence" — keep the first
window whole and drop the declared `overlap` leading tokens of every later
window before concatenating. -/
def specReconstruct (overlap : Nat) : List (List Nat) → List Nat
  | [] => []
  | c :: cs => c ++ (cs.map (List.drop overlap)).flatten

theorem windows_drop_flatten (S O : Nat) (hO : O < S) :
    ∀ (n : Nat) (ts : List Nat), ts.length ≤ n →
      ((windows S (S - O) ts).map (List.drop O)).flatten = ts.drop O := by
  intro n
  induction n with
  | zero =>
    intro ts hts
    have : ts = [] := List.eq_nil_of_length_eq_zero (by omega)
    subst this
    simp [windows_nil]
  | succ n ih =>
    intro ts hts
    rcases List.eq_nil_or_concat ts with h | _
    · subst h
      simp [windows_nil]
    · have hne : ts ≠ [] := by
        rintro rfl
        simp_all
      have hstep : 0 < S - O := by omega
      rw [windows_cons S (S - O) hstep ts hne, List.map_cons, List.flatten_cons]
      have hrec := ih (ts.drop (S - O)) (by
        rw [List.length_drop]
        have : 0 < ts.length := List.length_pos.mpr hne
        omega)
      rw [hrec, List.drop_drop, List.drop_take]
      have h2 : ts.drop (S - O + O) = (ts.drop O).drop (S - O) := by
        rw [List.drop_drop]
        congr 1
        omega
      rw [h2, List.take_append_drop]

theorem windows_length {α : Type} (size step : Nat) (xs : List α) :
    (windows size step xs).length = numIters xs.length step := by
  simp [windows]

theorem windows_getElem {α : Type} (size step : Nat) (xs : List α) (i : Nat)
    (h : i < numIters xs.length step) :
    (windows size step xs)[i]? = some ((xs.drop (step * i)).take size) := by
  unfold windows
  rw [List.getElem?_map, List.getElem?_range' 0 step h]
  simp

/-- C1 (amended): for `O < S`, token-window chunking emits the windows
`tokens[i:i+S]` at offsets `0, S-O, 2(S-O), ...`; concatenating the first
window with every later window minus its first `O` tokens reconstructs the
original token sequence (full coverage, no gaps), and every *full* `S`-token
window shares exactly its last `O` tokens with the start of the next window.
(The original claim is falsified by `C1_counterexample`: more than one trailing
window can be shorter than `S`.) -/
theorem C1_token_windows (S O : Nat) (ts : List Nat) (hO : O < S) :
    specReconstruct O (SpecsIndexer.chunk_content ts S O) = ts ∧
    ∀ i w1 w2, (SpecsIndexer.chunk_content ts S O)[i]? = some w1 →
      (SpecsIndexer.chunk_content ts S O)[i + 1]? = some w2 →
      w1.length = S → w1.drop (S - O) = w2.take O ∧ (w1.drop (S - O)).length = O := by
  have hstep : 0 < S - O := by omega
  constructor
  · unfold SpecsIndexer.chunk_content
    rcases eq_or_ne ts [] with rfl | hne
    · simp [windows_nil, specReconstruct]
    · rw [windows_cons S (S - O) hstep ts hne]
      simp only [specReconstruct]
      rw [windows_drop_flatten S O hO (ts.drop (S - O)).length _ le_rfl, List.drop_drop]
      have h1 : S - O + O = S := by omega
      rw [h1, List.take_append_drop]
  · intro i w1 w2 h1 h2 hlen
    unfold SpecsIndexer.chunk_content at h1 h2
    have hi1 : i + 1 < numIters ts.length (S - O) := by
      have := (List.getElem?_eq_some_iff.mp h2).1
      rwa [windows_length] at this
    have e1 := windows_getElem S (S - O) ts i (by omega)
    have e2 := windows_getElem S (S - O) ts (i + 1) hi1
    rw [e1] at h1
    rw [e2] at h2
    have hw1 : w1 = (ts.drop ((S - O) * i)).take S := by
      injection h1 with h
      exact h.symm
    have hw2 : w2 = (ts.drop ((S - O) * (i + 1))).take S := by
      injection h2 with h
      exact h.symm
    subst hw1
    subst hw2
    constructor
    · rw [List.drop_take, List.take_take]
      have hO1 : S - (S - O) = O := by omega
      have hO2 : min O S = O := by omega
      rw [hO1, hO2, List.drop_drop, Nat.mul_succ]
    · rw [List.length_drop, hlen]
      omega

theorem C1_witness :
    1 < 3 ∧
      (specReconstruct 1 (SpecsIndexer.chunk_content [7, 8, 9, 10] 3 1) = [7, 8, 9, 10] ∧
        ∀ i w1 w2, (SpecsIndexer.chunk_content [7, 8, 9, 10] 3 1)[i]? = some w1 →
          (SpecsIndexer.chunk_content [7, 8, 9, 10] 3 1)[i + 1]? = some w2 →
          w1.length = 3 → w1.drop (3 - 1) = w2.take 1 ∧ (w1.drop (3 - 1)).length = 1) :=
  ⟨by decide, C1_token_windows 3 1 [7, 8, 9, 10] (by decide)⟩

/-- C1 counterexample: with `S = 3`, `O = 2` and four tokens, the chunker emits
four windows and the window at index 2 has only 2 tokens although it is not
the last window — refuting "windows of S tokens ... (the last window may be
shorter)". -/
theorem C1_counterexample :
    SpecsIndexer.chunk_content [0, 1, 2, 3] 3 2 = [[0, 1, 2], [1, 2, 3], [2, 3], [3]] ∧
    (SpecsIndexer.chunk_content [0, 1, 2, 3] 3 2).length = 4 ∧
    ([2, 3] : List Nat).length ≠ 3 := by
  decide

/-- C2 (amended): for `O < S`, token-window chunking produces exactly one chunk
precisely when the total token count lies between 1 and `S - O`; for
`S - O <` count `≤ S` (allowed by the original claim) additional redundant
suffix windows are emitted, see `C2_counterexample`. -/
theorem C2_single_chunk_iff (S O : Nat) (ts : List Nat) (hO : O < S) :
    (SpecsIndexer.chunk_content ts S O).length = 1 ↔
      1 ≤ ts.length ∧ ts.length ≤ S - O := by
  unfold SpecsIndexer.chunk_content
  rw [windows_length]
  unfold numIters
  have hstep : 0 < S - O := by omega
  constructor
  · intro h
    have h1 : 1 ≤ (ts.length + (S - O) - 1) / (S - O) := by omega
    have h2 : (ts.length + (S - O) - 1) / (S - O) < 2 := by omega
    rw [Nat.le_div_iff_mul_le hstep] at h1
    rw [Nat.div_lt_iff_lt_mul hstep] at h2
    omega
  · intro h
    have h1 : 1 * (S - O) ≤ ts.length + (S - O) - 1 := by omega
    have h2 : ts.length + (S - O) - 1 < (1 + 1) * (S - O) := by omega
    exact Nat.div_eq_of_lt_le h1 h2

theorem C2_witness :
    1 < 2 ∧
      ((SpecsIndexer.chunk_content [5] 2 1).length = 1 ↔
        1 ≤ ([5] : List Nat).length ∧ ([5] : List Nat).length ≤ 2 - 1) :=
  ⟨by decide, C2_single_chunk_iff 2 1 [5] (by decide)⟩

/-- C2 counterexample: two tokens with `S = 2`, `O = 1` satisfy
`1 ≤ total tokens ≤ S`, yet two chunks are produced (`range(0, 2, 1)` iterates
twice), refuting "if total tokens ≤ S, exactly one chunk is produced". -/
theorem C2_counterexample :
    ([0, 1] : List Nat).length = 2 ∧ 1 ≤ 2 ∧ 2 ≤ 2 ∧
    SpecsIndexer.chunk_content [0, 1] 2 1 = [[0, 1], [1]] ∧
    (SpecsIndexer.chunk_content [0, 1] 2 1).length ≠ 1 := by
  decide

/-- Python `sub in s` for strings: contiguous substring containment. -/
def containsSub (s sub : List Char) : Bool :=
  (List.range (s.length + 1)).any (fun i => sub.isPrefixOf (s.drop i))

instance exceptDecEq {ε α : Type} [DecidableEq ε] [DecidableEq α] :
    DecidableEq (Except ε α)
  | Except.error x, Except.error y =>
    if h : x = y then isTrue (by rw [h])
    else isFalse (by intro he; injection he; contradiction)
  | Except.error _, Except.ok _ => isFalse (by intro h; exact Except.noConfusion h)
  | Except.ok _, Except.error _ => isFalse (by intro h; exact Except.noConfusion h)
  | Except.ok x, Except.ok y =>
    if h : x = y then isTrue (by rw [h])
    else isFalse (by intro he; injection he; contradiction)

/-- The whitespace characters recognised by Python `str.strip()` and
`str.split()` (ASCII subset; the unicode extras never occur in the inputs
considered here). -/
def pyIsSpace (c : Char) : Bool :=
  c = ' ' || c = '\t' || c = '\n' || c = '\r' || c = '\x0b' || c = '\x0c'

/-- Python `s.strip()`: remove leading and trailing whitespace. -/
def pyStrip (s : List Char) : List Char :=
  ((s.dropWhile pyIsSpace).reverse.dropWhile pyIsSpace).reverse

theorem pyStrip_length_le (s : List Char) : (pyStrip s).length ≤ s.length := by
  unfold pyStrip
  rw [List.length_reverse]
  calc ((s.dropWhile pyIsSpace).reverse.dropWhile pyIsSpace).length
      ≤ (s.dropWhile pyIsSpace).reverse.length :=
        (List.dropWhile_sublist pyIsSpace).length_le
    _ = (s.dropWhile pyIsSpace).length := List.length_reverse _
    _ ≤ s.length := (List.dropWhile_sublist pyIsSpace).length_le

/-- Python splitting of the content on the two-character separator of a blank
line, left to right and non-overlapping; splitting the empty string yields a
list holding one empty string. -/
def splitNN : List Char → List (List Char)
  | [] => [[]]
  | '\n' :: '\n' :: rest => [] :: splitNN rest
  | c :: rest =>
    match splitNN rest with
    | [] => [[c]]
    | p :: ps => (c :: p) :: ps

/-- Python `paragraph.split()` (no argument): split on runs of whitespace,
discarding empty fields.  `acc` is the word accumulated so far, reversed. -/
def pySplitAux (acc : List Char) : List Char → List (List Char)
  | [] => if acc.isEmpty then [] else [acc.reverse]
  | c :: rest =>
    if pyIsSpace c then
      if acc.isEmpty then pySplitAux [] rest
      else acc.reverse :: pySplitAux [] rest
    else pySplitAux (c :: acc) rest

def pySplit (s : List Char) : List (List Char) := pySplitAux [] s

/-- Python `sep.join(parts)`. -/
def pyJoin (sep : List Char) : List (List Char) → List Char
  | [] => []
  | [p] => p
  | p :: ps => p ++ sep ++ pyJoin sep ps

namespace LiteSpecsIndexer

/-- The oversized-single-paragraph fallback of `LiteSpecsIndexer.chunk_content`
(index_specs_lite.py lines 122-126): split the paragraph into whitespace
words and emit `' '.join(words[i:i+chunk_size//5])` for
`i in range(0, len(words), chunk_size//5)`. -/
def wordFallback (chunk_size : Nat) (paragraph : List Char) : List (List Char) :=
  (windows (chunk_size / 5) (chunk_size / 5) (pySplit paragraph)).map (pyJoin [' '])

/-- The paragraph loop of `LiteSpecsIndexer.chunk_content`
(index_specs_lite.py lines 109-129), with the trailing
`if current_chunk: chunks.append(current_chunk.strip())` folded into the base
case.  `current_chunk` is the running accumulator. -/
def packLoop (chunk_size : Nat) (current_chunk : List Char) :
    List (List Char) → List (List Char)
  | [] => if current_chunk.isEmpty then [] else [pyStrip current_chunk]
  | p :: ps =>
    if current_chunk.length + p.length + 2 ≤ chunk_size then
      if current_chunk.isEmpty then packLoop chunk_size p ps
      else packLoop chunk_size (current_chunk ++ '\n' :: '\n' :: p) ps
    else
      if current_chunk.isEmpty then
        wordFallback chunk_size p ++ packLoop chunk_size [] ps
      else
        pyStrip current_chunk :: packLoop chunk_size p ps

/-- Embeds `LiteSpecsIndexer.chunk_content` (index_specs_lite.py lines 103-131):
paragraph-packing chunking.  The `overlap` parameter is accepted but unused,
exactly as in the source. -/
def chunk_content (content : List Char) (chunk_size overlap : Nat) :
    List (List Char) :=
  packLoop chunk_size [] (splitNN content)

theorem packLoop_chunk_bound (S : Nat) (P : List (List Char)) :
    ∀ (ps : List (List Char)) (cur : List Char),
      (cur.length ≤ S ∨ cur ∈ P) → (∀ p ∈ ps, p ∈ P) →
      ∀ c ∈ packLoop S cur ps,
        c.length ≤ S ∨ ∃ p ∈ P, c = pyStrip p ∨ c ∈ wordFallback S p := by
  intro ps
  induction ps with
  | nil =>
    intro cur hcur _ c hc
    unfold packLoop at hc
    split at hc
    · simp at hc
    · simp only [List.mem_singleton] at hc
      subst hc
      rcases hcur with h | h
      · exact Or.inl (le_trans (pyStrip_length_le cur) h)
      · exact Or.inr ⟨cur, h, Or.inl rfl⟩
  | cons p ps ih =>
    intro cur hcur hps c hc
    have hpP : p ∈ P := hps p (List.mem_cons_self p ps)
    have hpsP : ∀ q ∈ ps, q ∈ P := fun q hq => hps q (List.mem_cons_of_mem p hq)
    unfold packLoop at hc
    split at hc
    case isTrue hfit =>
      split at hc
      case isTrue hemp =>
        exact ih p (Or.inr hpP) hpsP c hc
      case isFalse hemp =>
        refine ih (cur ++ '\n' :: '\n' :: p) (Or.inl ?_) hpsP c hc
        simp only [List.length_append, List.length_cons]
        omega
    case isFalse hfit =>
      split at hc
      case isTrue hemp =>
        rcases List.mem_append.mp hc with h | h
        · exact Or.inr ⟨p, hpP, Or.inr h⟩
        · exact ih [] (Or.inl (by simp)) hpsP c h
      case isFalse hemp =>
        rcases List.mem_cons.mp hc with h | h
        · subst h
          rcases hcur with h | h
          · exact Or.inl (le_trans (pyStrip_length_le cur) h)
          · exact Or.inr ⟨cur, h, Or.inl rfl⟩
        · exact ih p (Or.inr hpP) hpsP c h

/-- C3 (amended): every chunk emitted by paragraph-packing chunking either has
at most `S` characters, or is the `strip` of a single whole input paragraph
(the case the original claim misses: an oversized paragraph reached while the
accumulator is non-empty is emitted whole, see `C3_counterexample`), or is a
sub-chunk of the oversized-single-paragraph word-split fallback (which only
runs when the paragraph is reached with an empty accumulator). -/
theorem C3_chunk_size_bound (S O : Nat) (content : List Char) (c : List Char)
    (hc : c ∈ chunk_content content S O) :
    c.length ≤ S ∨
      ∃ p ∈ splitNN content, c = pyStrip p ∨ c ∈ wordFallback S p := by
  exact packLoop_chunk_bound S (splitNN content) (splitNN content) []
    (Or.inl (by simp)) (fun _ h => h) c hc

theorem C3_witness :
    ('a' :: 'b' :: []) ∈ chunk_content ("ab".toList) 10 200 ∧
      (('a' :: 'b' :: []).length ≤ 10 ∨
        ∃ p ∈ splitNN ("ab".toList),
          'a' :: 'b' :: [] = pyStrip p ∨ 'a' :: 'b' :: [] ∈ wordFallback 10 p) :=
  ⟨by decide, C3_chunk_size_bound 10 200 ("ab".toList) ('a' :: 'b' :: []) (by decide)⟩

/-- C3 counterexample: with `S = 10` and input `"ab\n\naaa bbb ccc ddd"`, the
second paragraph (15 characters, exceeding `S`) arrives while the accumulator
holds `"ab"`; it is emitted whole instead of passing through the word-split
fallback (which would have produced `["aaa bbb", "ccc ddd"]`). -/
theorem C3_counterexample :
    chunk_content ("ab\n\naaa bbb ccc ddd".toList) 10 200 =
      ["ab".toList, "aaa bbb ccc ddd".toList] ∧
    ("aaa bbb ccc ddd".toList).length = 15 ∧
    ("aaa bbb ccc ddd".toList) ∈ splitNN ("ab\n\naaa bbb ccc ddd".toList) ∧
    wordFallback 10 ("aaa bbb ccc ddd".toList) = ["aaa bbb".toList, "ccc ddd".toList] ∧
    ("aaa bbb ccc ddd".toList) ∉ wordFallback 10 ("aaa bbb ccc ddd".toList) := by
  decide

/-- C10: a whitespace-only input (here a single space) forms one
whitespace-only paragraph, which is accumulated and then stripped at flush
time, producing a chunk that is the empty string — while truly empty input
produces zero chunks. -/
theorem C10_whitespace_empty_chunk :
    chunk_content [' '] 1000 200 = [[]] ∧
    chunk_content [] 1000 200 = [] := by
  decide

end LiteSpecsIndexer

/-- One decimal digit as a character, `chr(48 + d)`. -/
def digitChar10 (d : Nat) : Char := Char.ofNat (48 + d)

/-- Python `str(i)` for a natural number: its decimal digit string. -/
def pyStr (n : Nat) : List Char :=
  if n = 0 then ['0'] else ((Nat.digits 10 n).map digitChar10).reverse

def unDigit10 (c : Char) : Nat := c.toNat - 48

theorem unDigit10_digitChar10 : ∀ d, d < 10 → unDigit10 (digitChar10 d) = d := by
  decide

theorem digitChar10_ne_underscore : ∀ d, d < 10 → digitChar10 d ≠ '_' := by
  decide

theorem digitChar10_eq_zero_char : ∀ d, d < 10 → digitChar10 d = '0' → d = 0 := by
  decide

theorem pyStr_no_underscore (n : Nat) : '_' ∉ pyStr n := by
  intro hmem
  unfold pyStr at hmem
  split at hmem
  · simp at hmem
  · rw [List.mem_reverse, List.mem_map] at hmem
    obtain ⟨d, hd, hch⟩ := hmem
    exact digitChar10_ne_underscore d (Nat.digits_lt_base (by norm_num) hd) hch

theorem map_unDigit10_digits (m : Nat) :
    List.map unDigit10 (List.map digitChar10 (Nat.digits 10 m)) = Nat.digits 10 m := by
  rw [List.map_map]
  calc List.map (unDigit10 ∘ digitChar10) (Nat.digits 10 m)
      = List.map id (Nat.digits 10 m) := by
        apply List.map_congr_left
        intro d hd
        simp only [Function.comp, id]
        exact unDigit10_digitChar10 d (Nat.digits_lt_base (by norm_num) hd)
    _ = Nat.digits 10 m := List.map_id _

theorem pyStr_inj {a b : Nat} (h : pyStr a = pyStr b) : a = b := by
  unfold pyStr at h
  by_cases ha : a = 0 <;> by_cases hb : b = 0
  · rw [ha, hb]
  · exfalso
    rw [if_pos ha, if_neg hb] at h
    have hlen := congrArg List.length h
    rw [List.length_reverse, List.length_map] at hlen
    obtain ⟨d, hd⟩ := List.length_eq_one.mp hlen.symm
    rw [hd] at h
    simp only [List.map_cons, List.map_nil, List.reverse_singleton, List.cons.injEq] at h
    have hd10 : d < 10 :=
      Nat.digits_lt_base (by norm_num) (hd ▸ List.mem_singleton.mpr rfl)
    have hd0 : d = 0 := digitChar10_eq_zero_char d hd10 h.1.symm
    have := Nat.ofDigits_digits 10 b
    rw [hd, hd0] at this
    simp [Nat.ofDigits] at this
    exact hb this.symm
  · exfalso
    rw [if_neg ha, if_pos hb] at h
    have hlen := congrArg List.length h
    rw [List.length_reverse, List.length_map] at hlen
    obtain ⟨d, hd⟩ := List.length_eq_one.mp hlen
    rw [hd] at h
    simp only [List.map_cons, List.map_nil, List.reverse_singleton, List.cons.injEq] at h
    have hd10 : d < 10 :=
      Nat.digits_lt_base (by norm_num) (hd ▸ List.mem_singleton.mpr rfl)
    have hd0 : d = 0 := digitChar10_eq_zero_char d hd10 h.1
    have := Nat.ofDigits_digits 10 a
    rw [hd, hd0] at this
    simp [Nat.ofDigits] at this
    exact ha this.symm
  · rw [if_neg ha, if_neg hb, List.reverse_inj] at h
    have hdig : Nat.digits 10 a = Nat.digits 10 b := by
      rw [← map_unDigit10_digits a, ← map_unDigit10_digits b, h]
    have := congrArg (Nat.ofDigits 10) hdig
    rwa [Nat.ofDigits_digits, Nat.ofDigits_digits] at this

/-- The ChromaDB id of a chunk, `f"{file_path}_{chunk_index}"`
(index_specs.py line 138). -/
def chunkId (file_path : List Char) (i : Nat) : List Char :=
  file_path ++ '_' :: pyStr i

theorem chunkId_inj_aux {p1 p2 : List Char} {i1 i2 : Nat}
    (hle : p1.length ≤ p2.length) (h : chunkId p1 i1 = chunkId p2 i2) :
    p1 = p2 ∧ i1 = i2 := by
  unfold chunkId at h
  have h1 : p1 = p2.take p1.length := by
    have := congrArg (List.take p1.length) h
    rwa [List.take_left, List.take_append_of_le_length hle] at this
  have h2 : p2 = p1 ++ p2.drop p1.length := by
    conv_lhs => rw [← List.take_append_drop p1.length p2]
    rw [← h1]
  rw [h2, List.append_assoc] at h
  have h3 : '_' :: pyStr i1 = p2.drop p1.length ++ '_' :: pyStr i2 :=
    List.append_cancel_left h
  cases hr : p2.drop p1.length with
  | nil =>
    rw [hr] at h3
    simp only [List.nil_append, List.cons.injEq] at h3
    refine ⟨?_, pyStr_inj h3.2⟩
    rw [h2, hr, List.append_nil]
  | cons c r =>
    exfalso
    rw [hr] at h3
    simp only [List.cons_append, List.cons.injEq] at h3
    exact pyStr_no_underscore i1
      (h3.2 ▸ List.mem_append_right r (List.mem_cons_self '_' (pyStr i2)))

theorem chunkId_inj {p1 p2 : List Char} {i1 i2 : Nat}
    (h : chunkId p1 i1 = chunkId p2 i2) : p1 = p2 ∧ i1 = i2 := by
  rcases le_total p1.length p2.length with hle | hle
  · exact chunkId_inj_aux hle h
  · have := chunkId_inj_aux hle h.symm
    exact ⟨this.1.symm, this.2.symm⟩

/-- A markdown source file: path relative to the specs root, file name, raw
content, and the title produced by the (external, markdown + BeautifulSoup)
parse of the content. -/
structure MDFile where
  rel_path : List Char
  file_name : List Char
  content : List Char
  title : List Char
deriving DecidableEq

/-- Per-chunk metadata (index_specs.py lines 56-63 and 129-134,
index_specs_lite.py lines 58-65 and 141-146).  The `hash` and `sections`
fields are computed by external collaborators (hashlib / BeautifulSoup) and
are omitted; they play no role in any claim. -/
structure ChunkMeta where
  file_path : List Char
  file_name : List Char
  file_size : Nat
  title : List Char
  chunk_index : Nat
  chunk_total : Nat
  chunk_preview : List Char
deriving DecidableEq, Inhabited

/-- Python `chunk[:200] + "..." if len(chunk) > 200 else chunk`. -/
def chunkPreview (c : List Char) : List Char :=
  if 200 < c.length then c.take 200 ++ "...".toList else c

namespace SpecsIndexer

/-- One `(id, document, metadata)` triple submitted to the ChromaDB
collection (the three parallel lists passed to `collection.add`). -/
structure Entry where
  id : List Char
  document : List Char
  metadata : ChunkMeta
deriving DecidableEq

/-- Embeds `SpecsIndexer.index_file` (index_specs.py lines 113-147): chunk the
content, then build parallel documents/metadatas/ids over `enumerate(chunks)`.
`encode`/`decode` are the external tiktoken tokenizer; embeddings go to the
external collection and carry no information used here. -/
def index_file (encode : List Char → List Nat) (decode : List Nat → List Char)
    (f : MDFile) : List Entry :=
  let chunks := (chunk_content (encode f.content) 1000 200).map decode
  ((List.range chunks.length).zip chunks).map (fun ic =>
    { id := chunkId f.rel_path ic.1
      document := ic.2
      metadata :=
        { file_path := f.rel_path
          file_name := f.file_name
          file_size := f.content.length
          title := f.title
          chunk_index := ic.1
          chunk_total := chunks.length
          chunk_preview := chunkPreview ic.2 } })

/-- Embeds `SpecsIndexer.index_all` (index_specs.py lines 149-177): delete the
collection, recreate it empty, and re-submit the chunks of every file; the prior
collection state is discarded entirely.  Per-file exceptions cannot occur in
the embedding (file reading and parsing are external). -/
def index_all (encode : List Char → List Nat) (decode : List Nat → List Char)
    (files : List MDFile) (prior : List Entry) : List Entry :=
  files.flatMap (index_file encode decode)

theorem index_file_length (encode : List Char → List Nat)
    (decode : List Nat → List Char) (f : MDFile) :
    (index_file encode decode f).length
      = (chunk_content (encode f.content) 1000 200).length := by
  simp [index_file]

theorem index_file_ids (encode : List Char → List Nat)
    (decode : List Nat → List Char) (f : MDFile) :
    (index_file encode decode f).map (fun e => e.id)
      = (List.range ((chunk_content (encode f.content) 1000 200).length)).map
          (chunkId f.rel_path) := by
  unfold index_file
  rw [List.map_map]
  have hzip : List.map Prod.fst
      ((List.range ((chunk_content (encode f.content) 1000 200).map decode).length).zip
        ((chunk_content (encode f.content) 1000 200).map decode))
      = List.range ((chunk_content (encode f.content) 1000 200).map decode).length :=
    List.map_fst_zip _ _ (by simp)
  calc List.map _ _
      = List.map (chunkId f.rel_path ∘ Prod.fst)
          ((List.range ((chunk_content (encode f.content) 1000 200).map decode).length).zip
            ((chunk_content (encode f.content) 1000 200).map decode)) := by
        apply List.map_congr_left
        intro x _
        rfl
    _ = List.map (chunkId f.rel_path)
          (List.map Prod.fst
            ((List.range ((chunk_content (encode f.content) 1000 200).map decode).length).zip
              ((chunk_content (encode f.content) 1000 200).map decode))) :=
        (List.map_map _ _ _).symm
    _ = _ := by rw [hzip, List.length_map]

theorem index_file_chunk_indices (encode : List Char → List Nat)
    (decode : List Nat → List Char) (f : MDFile) :
    (index_file encode decode f).map (fun e => e.metadata.chunk_index)
      = List.range ((chunk_content (encode f.content) 1000 200).length) := by
  unfold index_file
  rw [List.map_map]
  calc List.map _ _
      = List.map Prod.fst
          ((List.range ((chunk_content (encode f.content) 1000 200).map decode).length).zip
            ((chunk_content (encode f.content) 1000 200).map decode)) := by
        apply List.map_congr_left
        intro x _
        rfl
    _ = _ := by
        rw [List.map_fst_zip _ _ (by simp), List.length_map]

end SpecsIndexer

/-- C6: after `index_all`, chunk ids have the shape
`{relative_file_path}_{chunk_index}` with chunk indices contiguous from 0
within each file, and — because distinct files have distinct relative paths
and the decimal index part contains no underscore — the ids are globally
unique across the whole index. -/
theorem C6_chunk_ids_unique (encode : List Char → List Nat)
    (decode : List Nat → List Char) (files : List MDFile)
    (prior : List SpecsIndexer.Entry)
    (hpaths : (files.map (fun f => f.rel_path)).Nodup) :
    ((SpecsIndexer.index_all encode decode files prior).map (fun e => e.id)).Nodup ∧
    ∀ f ∈ files,
      (SpecsIndexer.index_file encode decode f).map (fun e => e.id)
        = (List.range ((SpecsIndexer.chunk_content (encode f.content) 1000 200).length)).map
            (chunkId f.rel_path) ∧
      (SpecsIndexer.index_file encode decode f).map (fun e => e.metadata.chunk_index)
        = List.range ((SpecsIndexer.chunk_content (encode f.content) 1000 200).length) := by
  constructor
  · unfold SpecsIndexer.index_all
    rw [List.map_flatMap]
    rw [List.nodup_flatMap]
    constructor
    · intro f _
      rw [SpecsIndexer.index_file_ids]
      exact List.Nodup.map (fun i j hij => (chunkId_inj hij).2) (List.nodup_range _)
    · have hpw : files.Pairwise (fun f1 f2 => f1.rel_path ≠ f2.rel_path) := by
        rw [List.Nodup, List.pairwise_map] at hpaths
        exact hpaths
      refine hpw.imp ?_
      intro f1 f2 hne
      rw [Function.onFun, List.disjoint_left]
      intro x hx1 hx2
      rw [SpecsIndexer.index_file_ids, List.mem_map] at hx1 hx2
      obtain ⟨i, _, hi⟩ := hx1
      obtain ⟨j, _, hj⟩ := hx2
      exact hne (chunkId_inj (hi.trans hj.symm)).1
  · intro f _
    exact ⟨SpecsIndexer.index_file_ids encode decode f,
      SpecsIndexer.index_file_chunk_indices encode decode f⟩

theorem C6_witness :
    (([⟨"a.md".toList, "a.md".toList, "x".toList, "T".toList⟩,
       ⟨"b.md".toList, "b.md".toList, "y".toList, "U".toList⟩] :
        List MDFile).map (fun f => f.rel_path)).Nodup ∧
    ((SpecsIndexer.index_all (fun s => s.map Char.toNat) (fun ts => ts.map Char.ofNat)
        [⟨"a.md".toList, "a.md".toList, "x".toList, "T".toList⟩,
         ⟨"b.md".toList, "b.md".toList, "y".toList, "U".toList⟩] []).map
      (fun e => e.id)).Nodup ∧
    ∀ f ∈ ([⟨"a.md".toList, "a.md".toList, "x".toList, "T".toList⟩,
            ⟨"b.md".toList, "b.md".toList, "y".toList, "U".toList⟩] : List MDFile),
      (SpecsIndexer.index_file (fun s => s.map Char.toNat) (fun ts => ts.map Char.ofNat) f).map
          (fun e => e.id)
        = (List.range ((SpecsIndexer.chunk_content ((fun s => s.map Char.toNat) f.content) 1000 200).length)).map
            (chunkId f.rel_path) ∧
      (SpecsIndexer.index_file (fun s => s.map Char.toNat) (fun ts => ts.map Char.ofNat) f).map
          (fun e => e.metadata.chunk_index)
        = List.range ((SpecsIndexer.chunk_content ((fun s => s.map Char.toNat) f.content) 1000 200).length) :=
  ⟨by decide,
    C6_chunk_ids_unique (fun s => s.map Char.toNat) (fun ts => ts.map Char.ofNat)
      [⟨"a.md".toList, "a.md".toList, "x".toList, "T".toList⟩,
       ⟨"b.md".toList, "b.md".toList, "y".toList, "U".toList⟩] [] (by decide)⟩

/-- In-memory state of `LiteSpecsIndexer` (index_specs_lite.py lines 43-46):
`documents`, `metadata`, the fitted TF-IDF matrix (opaque, owned by sklearn;
its representation is the type parameter `M`) and the `is_indexed` flag.
Persistence (`save`/`load`, pickle) is external disk I/O and is not part of
the state transition. -/
structure LiteState (M : Type) where
  documents : List (List Char)
  metadata : List ChunkMeta
  tfidf_matrix : Option M
  is_indexed : Bool
deriving DecidableEq

namespace LiteSpecsIndexer

/-- Embeds `LiteSpecsIndexer.index_file` (index_specs_lite.py lines 133-151): the
`(chunk, chunk_metadata)` pairs appended to `self.documents`/`self.metadata`
for one file, built over `enumerate(chunks)`. -/
def index_file (f : MDFile) : List ((List Char) × ChunkMeta) :=
  let chunks := chunk_content f.content 1000 200
  ((List.range chunks.length).zip chunks).map (fun ic =>
    (ic.2,
      { file_path := f.rel_path
        file_name := f.file_name
        file_size := f.content.length
        title := f.title
        chunk_index := ic.1
        chunk_total := chunks.length
        chunk_preview := chunkPreview ic.2 }))

/-- Embeds `LiteSpecsIndexer.index_all` (index_specs_lite.py lines 153-185): clear
`documents`/`metadata`, return early if no markdown files, otherwise process
every file and, if any chunk was produced, fit the TF-IDF matrix and set
`is_indexed`.  When nothing is (re)fitted, `tfidf_matrix` and `is_indexed`
keep their previous values, exactly as in the source. -/
def index_all {M : Type} (fit : List (List Char) → M) (files : List MDFile)
    (st : LiteState M) : LiteState M :=
  if files.isEmpty then { st with documents := [], metadata := [] }
  else if ((files.flatMap index_file).map (fun pr => pr.1)).isEmpty then
    { st with documents := (files.flatMap index_file).map (fun pr => pr.1),
              metadata := (files.flatMap index_file).map (fun pr => pr.2) }
  else
    { documents := (files.flatMap index_file).map (fun pr => pr.1)
      metadata := (files.flatMap index_file).map (fun pr => pr.2)
      tfidf_matrix := some (fit ((files.flatMap index_file).map (fun pr => pr.1)))
      is_indexed := true }

end LiteSpecsIndexer

/-- C7: re-running `index_all` on an unchanged corpus with unchanged
parameters reproduces the exact same index state, for both implementations:
each rebuild first discards all prior chunks (`documents`/`metadata` reset in
the lite indexer; `delete_collection` + recreate in the ChromaDB indexer) and
then re-submits everything, so no partial merge with the prior state can
occur. -/
theorem C7_reindex_idempotent :
    (∀ (M : Type) (fit : List (List Char) → M) (files : List MDFile)
        (st : LiteState M),
      LiteSpecsIndexer.index_all fit files (LiteSpecsIndexer.index_all fit files st)
        = LiteSpecsIndexer.index_all fit files st) ∧
    (∀ (encode : List Char → List Nat) (decode : List Nat → List Char)
        (files : List MDFile) (prior : List SpecsIndexer.Entry),
      SpecsIndexer.index_all encode decode files
          (SpecsIndexer.index_all encode decode files prior)
        = SpecsIndexer.index_all encode decode files prior) := by
  constructor
  · intro M fit files st
    by_cases hf : files.isEmpty <;>
      by_cases hd : ((files.flatMap LiteSpecsIndexer.index_file).map (fun pr => pr.1)).isEmpty <;>
      simp [LiteSpecsIndexer.index_all, hf, hd]
  · intro encode decode files prior
    rfl

/-- Insertion step of the embedded `np.argsort` (ascending by value).  The
numpy default sort is not stable on ties; the embedding fixes one
deterministic tie order, which no claim depends on. -/
def argsortInsert (vals : List ℚ) (i : Nat) : List Nat → List Nat
  | [] => [i]
  | j :: js =>
    if vals.getD i 0 ≤ vals.getD j 0 then i :: j :: js
    else j :: argsortInsert vals i js

/-- Embeds `np.argsort(similarities)`: the indices `0, ..., len-1` sorted ascending
by value. -/
def argsort (vals : List ℚ) : List Nat :=
  (List.range vals.length).foldr (argsortInsert vals) []

/-- One formatted search result of `LiteSpecsIndexer.search`
(index_specs_lite.py lines 205-211). -/
structure LiteResult where
  content : List Char
  metadata : ChunkMeta
  similarity_score : ℚ
  chunk_index : Nat
deriving DecidableEq

namespace LiteSpecsIndexer

/-- Embeds `LiteSpecsIndexer.search` (index_specs_lite.py lines 187-213): raise if no
index is available (the disk `load()` fallback is external persistence and is
not modelled), compute similarities (TF-IDF transform + cosine, both external,
abstracted as `sims`), take the reversed argsort truncated to `n_results`, and
keep only strictly positive similarities. -/
def search {M : Type} (st : LiteState M) (sims : List Char → List ℚ)
    (query : List Char) (n_results : Nat) : Except (List Char) (List LiteResult) :=
  if st.is_indexed then
    Except.ok ((((argsort (sims query)).reverse.take n_results).filter
        (fun idx => decide (0 < (sims query).getD idx 0))).map (fun idx =>
      { content := st.documents.getD idx []
        metadata := st.metadata.getD idx default
        similarity_score := (sims query).getD idx 0
        chunk_index := idx }))
  else Except.error ("No indexed data found. Run index_all() first.".toList)

end LiteSpecsIndexer

/-- C8: with a successfully built index, searching never raises: with an empty
query (whose TF-IDF vector is zero, so every cosine similarity is `≤ 0` —
that collaborator fact is the hypothesis `hz`) the positive-similarity filter
removes everything, and with `max_results = 0` the argsort truncation is
already empty; both calls return `ok []`. -/
theorem C8_empty_query_zero_k {M : Type} (st : LiteState M)
    (sims : List Char → List ℚ) (q : List Char) (n : Nat)
    (hsi : st.is_indexed = true) (hz : ∀ x ∈ sims [], x ≤ 0) :
    LiteSpecsIndexer.search st sims [] n = Except.ok [] ∧
    LiteSpecsIndexer.search st sims q 0 = Except.ok [] := by
  constructor
  · unfold LiteSpecsIndexer.search
    rw [hsi]
    simp only [if_true]
    have hfilter : (((argsort (sims [])).reverse.take n).filter
        (fun idx => decide (0 < (sims []).getD idx 0))) = [] := by
      rw [List.filter_eq_nil_iff]
      intro idx _
      simp only [decide_eq_true_eq, not_lt]
      rcases h : (sims [])[idx]? with _ | x
      · rw [List.getD_eq_getElem?_getD, h]
        simp
      · rw [List.getD_eq_getElem?_getD, h]
        simpa using hz x (List.getElem?_mem h)
    rw [hfilter]
    rfl
  · unfold LiteSpecsIndexer.search
    rw [hsi]
    simp

theorem C8_witness :
    (⟨[['d']], [default], none, true⟩ : LiteState Unit).is_indexed = true ∧
    (∀ x ∈ (fun (_ : List Char) => [(0 : ℚ)]) [], x ≤ 0) ∧
    (LiteSpecsIndexer.search (⟨[['d']], [default], none, true⟩ : LiteState Unit)
        (fun _ => [(0 : ℚ)]) [] 5 = Except.ok [] ∧
      LiteSpecsIndexer.search (⟨[['d']], [default], none, true⟩ : LiteState Unit)
        (fun _ => [(0 : ℚ)]) ['q'] 0 = Except.ok []) :=
  ⟨rfl, by decide,
    C8_empty_query_zero_k (⟨[['d']], [default], none, true⟩ : LiteState Unit)
      (fun _ => [(0 : ℚ)]) ['q'] 5 rfl (by decide)⟩

/-- One raw `(id, document, metadata, distance)` hit as returned by the
`collection.query` of the ChromaDB collaborator (distances are returned by
default, so `relevance_score = 1 - distance` is always computed). -/
structure RawHit where
  id : List Char
  document : List Char
  metadata : ChunkMeta
  distance : ℚ
deriving DecidableEq

/-- One formatted search result of `SpecsQuery.search`
(query_specs.py lines 65-74). -/
structure QueryResult where
  id : List Char
  content : List Char
  metadata : ChunkMeta
  distance : ℚ
  relevance_score : ℚ
deriving DecidableEq

namespace SpecsQuery

def formatHit (h : RawHit) : QueryResult :=
  { id := h.id
    content := h.document
    metadata := h.metadata
    distance := h.distance
    relevance_score := 1 - h.distance }

/-- Embeds `SpecsQuery.search` (query_specs.py lines 50-76): when a non-empty file
filter is given, it is turned into a `$contains` where-clause and handed to
`collection.query` of the collaborator — the filtering happens *during*
retrieval, not afterwards.  `collQuery` abstracts the external embedding
model plus ChromaDB query. -/
def search (collQuery : List Char → Nat → Option (List Char) → List RawHit)
    (query : List Char) (n_results : Nat) (file_filter : Option (List Char)) :
    List QueryResult :=
  let where_clause := match file_filter with
    | some f => if f.isEmpty then none else some f
    | none => none
  (collQuery query n_results where_clause).map formatHit

end SpecsQuery

namespace LiteSpecsQuery

/-- Embeds `LiteSpecsQuery.search` (query_specs_lite.py lines 32-40): take the
unfiltered top-`n_results` of the collaborating indexer, then drop results whose
metadata `file_path` does not contain the filter substring. -/
def search {M : Type} (st : LiteState M) (sims : List Char → List ℚ)
    (query : List Char) (n_results : Nat) (file_filter : Option (List Char)) :
    Except (List Char) (List LiteResult) :=
  (LiteSpecsIndexer.search st sims query n_results).map (fun results =>
    match file_filter with
    | some f =>
      if f.isEmpty then results
      else results.filter (fun r => containsSub r.metadata.file_path f)
    | none => results)

end LiteSpecsQuery

/-- C4 (amended): the retrieve-then-discard description is correct for the
lite implementation — `LiteSpecsQuery.search` post-filters the unfiltered
top-K, so the path of every surviving result contains the substring, the result
list is a subsequence of the unfiltered top-K in the same order, and it may
be shorter than requested.  `SpecsQuery.search`, however, passes the filter
to the collaborator as a where-clause (last conjunct), so its results are the
top-K of the collaborator *among matching chunks*, not a post-filtered subsequence
of the unfiltered top-K — refuted concretely in `C4_counterexample`. -/
theorem C4_file_filter {M : Type} (st : LiteState M) (sims : List Char → List ℚ)
    (q : List Char) (n : Nat) (f : List Char) (results : List LiteResult)
    (hf : f ≠ []) (hok : LiteSpecsIndexer.search st sims q n = Except.ok results) :
    LiteSpecsQuery.search st sims q n (some f)
        = Except.ok (results.filter (fun r => containsSub r.metadata.file_path f)) ∧
    (results.filter (fun r => containsSub r.metadata.file_path f)).Sublist results ∧
    (∀ r ∈ results.filter (fun r => containsSub r.metadata.file_path f),
      containsSub r.metadata.file_path f) ∧
    (∀ (collQuery : List Char → Nat → Option (List Char) → List RawHit)
        (k : Nat) (g : List Char), g ≠ [] →
      SpecsQuery.search collQuery q k (some g)
        = (collQuery q k (some g)).map SpecsQuery.formatHit) := by
  have hfe : f.isEmpty = false := by
    cases f with
    | nil => exact absurd rfl hf
    | cons c cs => rfl
  refine ⟨?_, List.filter_sublist _, ?_, ?_⟩
  · unfold LiteSpecsQuery.search
    rw [hok]
    simp only [hfe, Bool.false_eq_true, if_false]
    rfl
  · intro r hr
    exact (List.mem_filter.mp hr).2
  · intro collQuery k g hg
    have hge : g.isEmpty = false := by
      cases g with
      | nil => exact absurd rfl hg
      | cons c cs => rfl
    unfold SpecsQuery.search
    simp [hge]

def demoMetaA : ChunkMeta :=
  { file_path := "a/x.md".toList
    file_name := "x.md".toList
    file_size := 0
    title := []
    chunk_index := 0
    chunk_total := 1
    chunk_preview := [] }

def demoMetaB : ChunkMeta :=
  { file_path := "b/y.md".toList
    file_name := "y.md".toList
    file_size := 0
    title := []
    chunk_index := 0
    chunk_total := 1
    chunk_preview := [] }

/-- A two-chunk store for the external collaborator, ranked `b/y.md` first:
`collection.query` returns the top-`k` among the chunks matching the
where-clause, which is exactly the ChromaDB contract. -/
def demoColl : List Char → Nat → Option (List Char) → List RawHit :=
  fun _ n w =>
    (([⟨"b/y.md_0".toList, [], demoMetaB, 0⟩,
       ⟨"a/x.md_0".toList, [], demoMetaA, 0⟩] : List RawHit).filter (fun h =>
      match w with
      | none => true
      | some f => containsSub h.metadata.file_path f)).take n

/-- C4 counterexample: with the filter `"a/"` and `max_results = 1`,
`SpecsQuery.search` returns the chunk from `a/x.md`, which does not appear in
the unfiltered top-1 (`b/y.md`): the returned list is not obtained by
discarding entries from the unfiltered top-K, refuting the claim for the
`SpecsQuery.search` implementation it names. -/
theorem C4_counterexample :
    ((SpecsQuery.search demoColl [] 1 (some ("a/".toList))).map (fun r => r.id))
        = ["a/x.md_0".toList] ∧
    ((SpecsQuery.search demoColl [] 1 none).map (fun r => r.id))
        = ["b/y.md_0".toList] ∧
    ("a/x.md_0".toList) ∉ ((SpecsQuery.search demoColl [] 1 none).map (fun r => r.id)) := by
  decide

theorem C4_witness :
    (('a' :: []) ≠ []) ∧
    (LiteSpecsIndexer.search (⟨[], [], none, true⟩ : LiteState Unit)
        (fun _ => []) [] 5 = Except.ok []) ∧
    (LiteSpecsQuery.search (⟨[], [], none, true⟩ : LiteState Unit)
        (fun _ => []) [] 5 (some ['a'])
      = Except.ok (([] : List LiteResult).filter
          (fun r => containsSub r.metadata.file_path ('a' :: [])))) :=
  ⟨by decide, by decide,
    (C4_file_filter (⟨[], [], none, true⟩ : LiteState Unit) (fun _ => []) [] 5
      ('a' :: []) [] (by decide) (by decide)).1⟩

/-- The literal header line of the generated context. -/
def header1 : List Char := "CONTEXT FROM BOOKLITE SPECIFICATIONS:".toList

/-- The separator line, 50 repetitions of the equals sign. -/
def header2 : List Char := List.replicate 50 '='

/-- The greedy budget loop common to both `get_context_for_generation`
implementations (query_specs.py lines 90-103, index_specs_lite.py lines
261-272): format the next candidate, and if the running counter plus its
measured size exceeds the budget, break — otherwise append and continue. -/
def contextLoop {α : Type} (block : α → List Char) (measure : List Char → Nat)
    (budget : Nat) : Nat → List α → List (List Char)
  | _, [] => []
  | cur, r :: rs =>
    if budget < cur + measure (block r) then []
    else block r :: contextLoop block measure budget (cur + measure (block r)) rs

/-- Modelled from the spec: the number of leading candidates the budget loop
admits — stop at the first block that would push the running counter past the
budget, never skipping ahead. -/
def specStopCount (budget : Nat) : Nat → List Nat → Nat
  | _, [] => 0
  | cur, n :: ns => if budget < cur + n then 0 else specStopCount budget (cur + n) ns + 1

theorem contextLoop_eq_take {α : Type} (block : α → List Char)
    (measure : List Char → Nat) (budget : Nat) :
    ∀ (rs : List α) (cur : Nat),
      contextLoop block measure budget cur rs
        = (rs.map block).take
            (specStopCount budget cur ((rs.map block).map measure)) := by
  intro rs
  induction rs with
  | nil => intro cur; rfl
  | cons r rs ih =>
    intro cur
    simp only [contextLoop, List.map_cons, specStopCount]
    split
    · rfl
    · rw [List.take_succ_cons, ih]

namespace LiteSpecsIndexer

/-- One formatted result block of
`LiteSpecsIndexer.get_context_for_generation` (index_specs_lite.py lines
263-266).  `fmt` renders the floating-point similarity (`:.2f`), which is
external float formatting. -/
def formatBlock (fmt : ℚ → List Char) (r : LiteResult) : List Char :=
  "\n--- From ".toList ++ r.metadata.file_path ++ " ---\n".toList ++
  "Section: ".toList ++ r.metadata.title ++ "\n".toList ++
  "Similarity: ".toList ++ fmt r.similarity_score ++ "\n".toList ++
  "Content:\n".toList ++ r.content ++ "\n".toList

/-- Embeds `LiteSpecsIndexer.get_context_for_generation` (index_specs_lite.py lines
249-274): search with a fixed over-fetch of 10, emit the two header lines,
initialise the running character counter with their joined length, then run
the greedy budget loop and join everything with newlines.  The `search` call
can raise (unindexed state), which propagates. -/
def get_context_for_generation {M : Type} (fmt : ℚ → List Char)
    (st : LiteState M) (sims : List Char → List ℚ) (query : List Char)
    (max_tokens : Nat) : Except (List Char) (List Char) :=
  (search st sims query 10).map (fun results =>
    pyJoin ['\n'] (header1 :: header2 ::
      contextLoop (formatBlock fmt) List.length max_tokens
        (pyJoin ['\n'] [header1, header2]).length results))

end LiteSpecsIndexer

namespace SpecsQuery

/-- One formatted result block of `SpecsQuery.get_context_for_generation`
(query_specs.py lines 92-95). -/
def formatBlock (fmt : ℚ → List Char) (r : QueryResult) : List Char :=
  "\n--- From ".toList ++ r.metadata.file_path ++ " ---\n".toList ++
  "Section: ".toList ++ r.metadata.title ++ "\n".toList ++
  "Relevance: ".toList ++ fmt r.relevance_score ++ "\n".toList ++
  "Content:\n".toList ++ r.content ++ "\n".toList

/-- Embeds `SpecsQuery.get_context_for_generation` (query_specs.py lines 78-105):
same structure as the lite variant, but the running counter measures tiktoken
token counts (`encode`) rather than characters. -/
def get_context_for_generation (encode : List Char → List Nat)
    (fmt : ℚ → List Char)
    (collQuery : List Char → Nat → Option (List Char) → List RawHit)
    (query : List Char) (max_tokens : Nat) : List Char :=
  pyJoin ['\n'] (header1 :: header2 ::
    contextLoop (formatBlock fmt) (fun t => (encode t).length) max_tokens
      (encode (pyJoin ['\n'] [header1, header2])).length
      (search collQuery query 10 none))

end SpecsQuery

/-- C5: both `get_context_for_generation` implementations over-fetch 10
candidates and emit exactly the blocks of a *prefix* of that ranked list, cut
at the first candidate whose formatted block would push the running counter
past the budget (`specStopCount`); later, possibly smaller, candidates are
never considered. -/
theorem C5_context_budget_prefix :
    (∀ (M : Type) (fmt : ℚ → List Char) (st : LiteState M)
        (sims : List Char → List ℚ) (q : List Char) (budget : Nat)
        (results : List LiteResult),
      LiteSpecsIndexer.search st sims q 10 = Except.ok results →
      LiteSpecsIndexer.get_context_for_generation fmt st sims q budget
        = Except.ok (pyJoin ['\n'] (header1 :: header2 ::
            ((results.map (LiteSpecsIndexer.formatBlock fmt)).take
              (specStopCount budget (pyJoin ['\n'] [header1, header2]).length
                ((results.map (LiteSpecsIndexer.formatBlock fmt)).map List.length)))))) ∧
    (∀ (encode : List Char → List Nat) (fmt : ℚ → List Char)
        (collQuery : List Char → Nat → Option (List Char) → List RawHit)
        (q : List Char) (budget : Nat),
      SpecsQuery.get_context_for_generation encode fmt collQuery q budget
        = pyJoin ['\n'] (header1 :: header2 ::
            (((SpecsQuery.search collQuery q 10 none).map (SpecsQuery.formatBlock fmt)).take
              (specStopCount budget (encode (pyJoin ['\n'] [header1, header2])).length
                (((SpecsQuery.search collQuery q 10 none).map
                  (SpecsQuery.formatBlock fmt)).map (fun t => (encode t).length)))))) := by
  constructor
  · intro M fmt st sims q budget results hok
    unfold LiteSpecsIndexer.get_context_for_generation
    rw [hok]
    simp only [Except.map]
    rw [contextLoop_eq_take]
  · intro encode fmt collQuery q budget
    unfold SpecsQuery.get_context_for_generation
    rw [contextLoop_eq_take]

theorem C5_witness :
    (LiteSpecsIndexer.search (⟨[], [], none, true⟩ : LiteState Unit)
        (fun _ => []) [] 10 = Except.ok []) ∧
    (LiteSpecsIndexer.get_context_for_generation (fun _ => [])
        (⟨[], [], none, true⟩ : LiteState Unit) (fun _ => []) [] 0
      = Except.ok (pyJoin ['\n'] (header1 :: header2 ::
          ((([] : List LiteResult).map (LiteSpecsIndexer.formatBlock (fun _ => []))).take
            (specStopCount 0 (pyJoin ['\n'] [header1, header2]).length
              ((([] : List LiteResult).map
                (LiteSpecsIndexer.formatBlock (fun _ => []))).map List.length)))))) :=
  ⟨by decide,
    C5_context_budget_prefix.1 Unit (fun _ => [])
      (⟨[], [], none, true⟩ : LiteState Unit) (fun _ => []) [] 0 [] (by decide)⟩

theorem pyJoin_cons_cons (sep p q : List Char) (ps : List (List Char)) :
    pyJoin sep (p :: q :: ps) = p ++ sep ++ pyJoin sep (q :: ps) := rfl

theorem header_length : (pyJoin ['\n'] [header1, header2]).length = 88 := by
  decide

theorem header_take (bs : List (List Char)) :
    (pyJoin ['\n'] (header1 :: header2 :: bs)).take 88
        = pyJoin ['\n'] [header1, header2] ∧
    88 ≤ (pyJoin ['\n'] (header1 :: header2 :: bs)).length := by
  cases bs with
  | nil =>
    constructor
    · exact List.take_of_length_le (le_of_eq header_length)
    · exact le_of_eq header_length.symm
  | cons b bs =>
    have hsplit : pyJoin ['\n'] (header1 :: header2 :: b :: bs)
        = pyJoin ['\n'] [header1, header2] ++ ('\n' :: pyJoin ['\n'] (b :: bs)) := by
      rw [pyJoin_cons_cons, pyJoin_cons_cons]
      simp [pyJoin, List.append_assoc]
    rw [hsplit]
    constructor
    · rw [List.take_append_of_le_length (le_of_eq header_length.symm)]
      exact List.take_of_length_le (le_of_eq header_length)
    · rw [List.length_append, header_length]
      omega

/-- C9: both `get_context_for_generation` implementations emit the fixed
header (`"CONTEXT FROM BOOKLITE SPECIFICATIONS:"` plus the 50-character `=`
rule, 88 characters joined) before any budget check, so the output always
starts with it; consequently, in the character-budgeted lite implementation a
budget smaller than 88 is always exceeded by the returned context — the
budget only bounds the appended chunk blocks. -/
theorem C9_header_unconditional :
    (∀ (encode : List Char → List Nat) (fmt : ℚ → List Char)
        (collQuery : List Char → Nat → Option (List Char) → List RawHit)
        (q : List Char) (budget : Nat),
      (SpecsQuery.get_context_for_generation encode fmt collQuery q budget).take 88
        = pyJoin ['\n'] [header1, header2]) ∧
    (∀ (M : Type) (fmt : ℚ → List Char) (st : LiteState M)
        (sims : List Char → List ℚ) (q : List Char) (budget : Nat)
        (ctx : List Char),
      LiteSpecsIndexer.get_context_for_generation fmt st sims q budget
          = Except.ok ctx →
      ctx.take 88 = pyJoin ['\n'] [header1, header2] ∧
        (budget < 88 → budget < ctx.length)) := by
  constructor
  · intro encode fmt collQuery q budget
    exact (header_take _).1
  · intro M fmt st sims q budget ctx hok
    unfold LiteSpecsIndexer.get_context_for_generation at hok
    cases hs : LiteSpecsIndexer.search st sims q 10 with
    | error e =>
      rw [hs] at hok
      exact absurd hok (by simp [Except.map])
    | ok results =>
      rw [hs] at hok
      simp only [Except.map] at hok
      injection hok with hctx
      rw [← hctx]
      refine ⟨(header_take _).1, fun hb => ?_⟩
      have := (header_take (contextLoop (LiteSpecsIndexer.formatBlock fmt)
        List.length budget (pyJoin ['\n'] [header1, header2]).length results)).2
      omega

theorem C9_witness :
    (LiteSpecsIndexer.get_context_for_generation (fun _ => [])
        (⟨[], [], none, true⟩ : LiteState Unit) (fun _ => []) [] 0
      = Except.ok (pyJoin ['\n'] [header1, header2])) ∧
    ((pyJoin ['\n'] [header1, header2]).take 88 = pyJoin ['\n'] [header1, header2] ∧
      (0 < 88 → 0 < (pyJoin ['\n'] [header1, header2]).length)) :=
  ⟨by decide,
    C9_header_unconditional.2 Unit (fun _ => [])
      (⟨[], [], none, true⟩ : LiteState Unit) (fun _ => []) [] 0
      (pyJoin ['\n'] [header1, header2]) (by decide)⟩

end Booklite
